import Mathlib

/-!
Verification of the prompt-sidebar extension's persistence layer.

Shallow embedding of:
* `src/lib/dateUtils.ts` (shipped in this repository alongside
  `background.ts`): `getValidDate`, `getValidDateWithFallback`,
  `dateToISOString`, `restoreDateFromStorage`, `createCurrentDate`;
* `src/lib/storage.ts` (`storageUtils`, re-exported next to
  `types/prompt.ts`): `savePrompts`, `getPrompts`, `addPrompt`,
  `updatePrompt`, `deletePrompt`, `reorderPrompts`, `importPrompts`.

Modelling conventions:
* JavaScript runtime values that can sit in a record field are modelled by
  `JVal`; numbers carry the finite / NaN / infinity distinction that
  `isFinite` observes.  Object identity is not modelled: `===` on two
  objects or arrays that reach a comparison from different sources is
  `false`, which is what `jvalStrictEq` returns for them.
* A JavaScript `Date` is modelled by `JSDate`: either a valid instant
  (epoch milliseconds, an integer) or the invalid date (`NaN` time value).
* `Date.prototype.toISOString` is modelled as an injective rendering
  (`isoRender`) of the epoch-millisecond value, and `new Date(string)` as
  its partial inverse (`jsParseDate`).  The Gregorian digit layout of the
  real ISO-8601 string is not reproduced; the claims under verification
  depend only on the rendering being a canonical string form that parses
  back to the same instant, never on the digits themselves.  Strings
  outside the canonical image are treated as unparsable, so the code's
  current-time fallback applies to them.
* "Now" is threaded explicitly: each operation takes the current epoch
  milliseconds as a parameter (the source calls `new Date()` /
  `createCurrentDate()` at the corresponding points).
-/

namespace PromptHelper

/-- A JavaScript number as observed by `isFinite` and arithmetic:
finite (integral values suffice for every claim), NaN, or an infinity. -/
inductive JNum where
  | finite (m : Int)
  | nan
  | inf
  | negInf
deriving DecidableEq

/-- A JavaScript `Date`: a valid instant (epoch milliseconds) or the
invalid date, whose time value is NaN. -/
inductive JSDate where
  | valid (millis : Int)
  | invalid
deriving DecidableEq

/-- A JavaScript runtime value that can appear in a stored record field or
in a JSON-parsed import document.  `jdate` represents a native `Date`
object (storable in principle, which is exactly what `savePrompts` guards
against); `jnull` covers both `null` and `undefined`, which every code
path under verification treats alike (`== null`, truthiness, `typeof`
dispatch reaching the final fallback). -/
inductive JVal where
  | jnull
  | jbool (b : Bool)
  | jnum (n : JNum)
  | jstr (s : String)
  | jarr (elems : List JVal)
  | jobj (fields : List (String × JVal))
  | jdate (d : JSDate)

/-- JavaScript truthiness of a `JVal`. -/
def truthy : JVal → Bool
  | .jnull => false
  | .jbool b => b
  | .jnum (.finite m) => !(m == 0)
  | .jnum .nan => false
  | .jnum .inf => true
  | .jnum .negInf => true
  | .jstr s => !(s == "")
  | .jarr _ => true
  | .jobj _ => true
  | .jdate _ => true

/-- JavaScript strict equality `===` on `JVal`s.  `NaN === NaN` is false;
objects, arrays and dates compare by reference, and every comparison the
embedded code performs is between values reaching it from different
allocations, so those cases are `false`. -/
def jvalStrictEq : JVal → JVal → Bool
  | .jnull, .jnull => true
  | .jbool a, .jbool b => a == b
  | .jnum (.finite a), .jnum (.finite b) => a == b
  | .jnum .inf, .jnum .inf => true
  | .jnum .negInf, .jnum .negInf => true
  | .jstr a, .jstr b => a == b
  | _, _ => false

/-- Property access `v[key]`.  On objects it returns the field or
`undefined`; on every other value the code under verification only ever
observes the access through truthiness checks inside a `try` block, where
the `undefined` result (or, for `null`, the `TypeError` caught by the
surrounding handler) is observably the same as our `jnull`. -/
def jsGetField (v : JVal) (key : String) : JVal :=
  match v with
  | .jobj fields =>
    match fields.find? (fun kv => kv.1 == key) with
    | some kv => kv.2
    | none => .jnull
  | _ => .jnull

/-- `Array.isArray`. -/
def jsIsArray : JVal → Bool
  | .jarr _ => true
  | _ => false

/-! ### Canonical ISO rendering of an instant

`isoRender` stands for `Date.prototype.toISOString`; `jsParseDate` stands
for `new Date(string)` restricted to the canonical image (see the header
comment).  The encoding uses binary digits of the magnitude so that every
definition evaluates by kernel reduction on concrete inputs. -/

/-- Little-endian binary digits of `n`; the first argument is structural
fuel (`n` itself suffices, since the value halves each step). -/
def natCharsAux : Nat → Nat → List Char
  | 0, _ => []
  | f + 1, n => if n = 0 then [] else (if n % 2 = 1 then '1' else '0') :: natCharsAux f (n / 2)

def natChars (n : Nat) : List Char :=
  natCharsAux n n

def natOfChars : List Char → Nat
  | [] => 0
  | c :: cs => (if c = '1' then 1 else 0) + 2 * natOfChars cs

def intChars : Int → List Char
  | .ofNat n => '+' :: natChars n
  | .negSucc n => '-' :: natChars (n + 1)

def decodeIntChars : List Char → Option Int
  | '+' :: ds => some (Int.ofNat (natOfChars ds))
  | '-' :: ds => some (-(Int.ofNat (natOfChars ds)))
  | _ => none

/-- The canonical serialized form of the instant `m` (model of
`toISOString`). -/
def isoRender (m : Int) : String :=
  String.mk ('I' :: 'S' :: 'O' :: ':' :: intChars m)

/-- Model of `new Date(string)` producing a valid instant: defined exactly
on the canonical image of `isoRender`. -/
def jsParseDate (s : String) : Option Int :=
  match s.data with
  | 'I' :: 'S' :: 'O' :: ':' :: rest => decodeIntChars rest
  | _ => none

/-! ### dateUtils -/

/-- `DateInput` from `dateUtils.ts`: `string | number | Date | null |
undefined`.  `dother` covers the dynamically possible remaining shapes
(booleans, plain objects, arrays) that fall through every `typeof` branch
of `getValidDate` to its final `return null`. -/
inductive DateInput where
  | dnull
  | dstr (s : String)
  | dnum (n : JNum)
  | ddate (d : JSDate)
  | dother
deriving DecidableEq

/-- ECMAScript time value range: a `Date` holds instants with
`|millis| ≤ 8,640,000,000,000,000`; `new Date(t)` beyond it is the
invalid date, which `getValidDate`'s `isNaN` check turns into `null`. -/
def jsDateTimeRange : Int := 8640000000000000

/-- `getValidDate` from `dateUtils.ts`.  The string branch's
`dateInput.trim() === ""` test is modelled as an all-whitespace check,
which is the same predicate. -/
def getValidDate : DateInput → Option JSDate
  | .dnull => none
  | .ddate dt =>
    match dt with
    | .invalid => none
    | .valid m => some (.valid m)
  | .dstr s =>
    if s.data.all Char.isWhitespace then none
    else
      match jsParseDate s with
      | some m => some (.valid m)
      | none => none
  | .dnum n =>
    match n with
    | .nan => none
    | .inf => none
    | .negInf => none
    | .finite m =>
      if m < 0 then none
      else
        if m < 10000000000 then some (.valid (m * 1000))
        else if m ≤ jsDateTimeRange then some (.valid m) else none
  | .dother => none

/-- `getValidDateWithFallback`: `getValidDate(d) || new Date()`. -/
def getValidDateWithFallback (now : Int) (d : DateInput) : JSDate :=
  (getValidDate d).getD (.valid now)

/-- `dateToISOString`.  (`getValidDate` never yields the invalid date, so
the second branch is unreachable; it is kept for totality.) -/
def dateToISOString (now : Int) (d : DateInput) : String :=
  match getValidDateWithFallback now d with
  | .valid m => isoRender m
  | .invalid => isoRender now

/-- Dynamic dispatch a `JVal` into `getValidDate`'s input classification. -/
def jvalToDateInput : JVal → DateInput
  | .jnull => .dnull
  | .jstr s => .dstr s
  | .jnum n => .dnum n
  | .jdate d => .ddate d
  | _ => .dother

/-- `restoreDateFromStorage` from `dateUtils.ts`, over the storable
values of our model.  Plain objects and arrays have no `getTime` /
`toISOString` capability here, and their `toString` text is not a
canonical rendering, so they fall through to the final current-time
fallback, as do unparsable strings and out-of-range numbers. -/
def restoreDateFromStorage (now : Int) : JVal → JSDate
  | .jnull => .valid now
  | .jdate d =>
    match d with
    | .invalid => .valid now
    | .valid m => .valid m
  | .jstr s =>
    match getValidDate (.dstr s) with
    | some d => d
    | none => .valid now
  | .jnum n =>
    match getValidDate (.dnum n) with
    | some d => d
    | none => .valid now
  | _ => .valid now

/-! ### Records and the storage shape -/

/-- An in-memory prompt record (`Prompt` from `types/prompt.ts`).  The
`id`/`title`/`content`/`tags` fields stay dynamic (`JVal`) because
the import path can inject non-string values unchanged; timestamps are native
`Date`s in memory.  `order` is numeric on every write path. -/
structure Prompt where
  id : JVal
  title : JVal
  content : JVal
  tags : JVal
  createdAt : JSDate
  updatedAt : JSDate
  order : Int

/-- A record as it sits in the storage cell: same pass-through fields, but
the timestamp slots hold whatever dynamic value was persisted — which is
exactly what `restoreDateFromStorage` defends against. -/
structure StoredRec where
  id : JVal
  title : JVal
  content : JVal
  tags : JVal
  createdAt : JVal
  updatedAt : JVal
  order : Int

/-- The per-record serialization performed by `savePrompts`: spread the
record and replace both timestamps by their ISO string. -/
def serializePrompt (now : Int) (p : Prompt) : StoredRec :=
  { id := p.id
    title := p.title
    content := p.content
    tags := p.tags
    createdAt := .jstr (dateToISOString now (.ddate p.createdAt))
    updatedAt := .jstr (dateToISOString now (.ddate p.updatedAt))
    order := p.order }

/-- The per-record restoration performed by `getPrompts`: spread the raw
record and pass both timestamp slots through `restoreDateFromStorage`. -/
def restorePrompt (now : Int) (s : StoredRec) : Prompt :=
  { id := s.id
    title := s.title
    content := s.content
    tags := s.tags
    createdAt := restoreDateFromStorage now s.createdAt
    updatedAt := restoreDateFromStorage now s.updatedAt
    order := s.order }

/-- `savePrompts` on the happy path (the write succeeds against either
backend; both backends receive the same serialized array). -/
def savePromptsOk (now : Int) (ps : List Prompt) : List StoredRec :=
  ps.map (serializePrompt now)

/-- `getPrompts` on the happy path: decode the stored array. -/
def getPromptsOk (now : Int) (st : List StoredRec) : List Prompt :=
  st.map (restorePrompt now)

/-! ### The read path with failure outcomes (for the `list()` claim)

`getPrompts` reads `chrome.storage.local` when available, otherwise
`localStorage`; on a throw it retries via `localStorage`.  A backend read
outcome is either a throw (`Except.error`) or a value: `none` models a
missing key (the code substitutes `[]`), `some st` the stored array.  The
`localRead` outcome folds `localStorage.getItem` plus `JSON.parse`, either
of which can throw. -/
structure BackendState where
  chromeAvailable : Bool
  chromeRead : Except Unit (Option (List StoredRec))
  localRead : Except Unit (Option (List StoredRec))

/-- The read the `try` block performs first. -/
def primaryRead (b : BackendState) : Except Unit (Option (List StoredRec)) :=
  if b.chromeAvailable then b.chromeRead else b.localRead

/-- `getPrompts` with failure outcomes.  The `catch` block re-reads
`localStorage` without any further handler, so a throw there propagates
out of `getPrompts`. -/
def getPrompts (now : Int) (b : BackendState) : Except Unit (List Prompt) :=
  match primaryRead b with
  | .ok v => .ok (getPromptsOk now (v.getD []))
  | .error _ =>
    match b.localRead with
    | .ok v => .ok (getPromptsOk now (v.getD []))
    | .error e => .error e

/-! ### Mutating operations (happy-path read/write) -/

/-- `addPrompt`: read, push, save. -/
def addPrompt (now : Int) (p : Prompt) (st : List StoredRec) : List StoredRec :=
  savePromptsOk now (getPromptsOk now st ++ [p])

/-- Replace the first record whose `id` is `===`-equal to `up.id`
(`findIndex` + index assignment in `updatePrompt`). -/
def updatePromptList (up : Prompt) : List Prompt → List Prompt
  | [] => []
  | p :: rest =>
    if jvalStrictEq p.id up.id then up :: rest else p :: updatePromptList up rest

/-- `updatePrompt`: if `findIndex` misses (`index === -1`) nothing is
saved and the storage cell is untouched. -/
def updatePrompt (now : Int) (up : Prompt) (st : List StoredRec) : List StoredRec :=
  let ps := getPromptsOk now st
  if ps.any (fun p => jvalStrictEq p.id up.id) then
    savePromptsOk now (updatePromptList up ps)
  else st

/-- `deletePrompt`: filter by `p.id !== promptId` and save. -/
def deletePrompt (now : Int) (promptId : String) (st : List StoredRec) : List StoredRec :=
  savePromptsOk now ((getPromptsOk now st).filter (fun p => !(jvalStrictEq p.id (.jstr promptId))))

/-- `reorderedPrompts.map((prompt, index) => ({...prompt, order: index}))`. -/
def withOrders : List Prompt → Nat → List Prompt
  | [], _ => []
  | p :: rest, k => { p with order := (k : Int) } :: withOrders rest (k + 1)

/-- `reorderPrompts`: rewrites every `order` field to the positional index
and saves.  It performs no read — the argument list fully replaces the
stored collection (`st` is ignored). -/
def reorderPrompts (now : Int) (reordered : List Prompt) (_st : List StoredRec) : List StoredRec :=
  savePromptsOk now (withOrders reordered 0)

/-! ### Import -/

structure ImportResult where
  success : Bool
  imported : Nat
  message : String

/-- The filter predicate of `importPrompts`: required fields truthy, and
not a duplicate of an existing record by exact (`===`) title and content. -/
def importEntryValid (existing : List Prompt) (e : JVal) : Bool :=
  truthy (jsGetField e "id") && truthy (jsGetField e "title") &&
    truthy (jsGetField e "content") &&
    !(existing.any fun ex =>
      jvalStrictEq ex.title (jsGetField e "title") &&
        jvalStrictEq ex.content (jsGetField e "content"))

/-- `existingPrompts.length > 0 ? Math.max(...orders) : -1`. -/
def maxOrderOf (existing : List Prompt) : Int :=
  match existing.map (fun p => p.order) with
  | [] => -1
  | x :: xs => xs.foldl max x

/-- Build one imported record: spread of the parsed entry with `id`
(kept when truthy, which the filter guarantees), fresh `order`, validated
timestamps falling back to now, and `tags` coerced to an array. -/
def mkImportedPrompt (now : Int) (maxOrder : Int) (idx : Nat) (e : JVal) : Prompt :=
  { id :=
      if truthy (jsGetField e "id") then jsGetField e "id"
      else .jstr ("imported-" ++ toString now ++ "-" ++ toString idx)
    title := jsGetField e "title"
    content := jsGetField e "content"
    tags := if jsIsArray (jsGetField e "tags") then jsGetField e "tags" else .jarr []
    createdAt := (getValidDate (jvalToDateInput (jsGetField e "createdAt"))).getD (.valid now)
    updatedAt := (getValidDate (jvalToDateInput (jsGetField e "updatedAt"))).getD (.valid now)
    order := maxOrder + 1 + idx }

/-- `newPrompts.map((prompt, index) => ...)`. -/
def buildImported (now : Int) (maxOrder : Int) : List JVal → Nat → List Prompt
  | [], _ => []
  | e :: rest, idx => mkImportedPrompt now maxOrder idx e :: buildImported now maxOrder rest (idx + 1)

inductive ImportError where
  | invalidFormat

def importErrorMessage : ImportError → String
  | .invalidFormat => "Invalid file format: missing prompts array"

def successMessage (n : Nat) : String :=
  if n > 0 then
    "Successfully imported " ++ toString n ++ " prompt" ++ (if n > 1 then "s" else "")
  else "No new prompts to import (duplicates were skipped)"

/-- The body of `importPrompts`'s `try` block, after JSON parsing: the
structural validation throw and the filter/merge/save pipeline. -/
def importInner (now : Int) (doc : JVal) (st : List StoredRec) :
    Except ImportError (ImportResult × List StoredRec) :=
  let pr := jsGetField doc "prompts"
  if !truthy pr || !jsIsArray pr then .error .invalidFormat
  else
    let es := match pr with | .jarr l => l | _ => []
    let existing := getPromptsOk now st
    let newEntries := es.filter (importEntryValid existing)
    let importedCount := newEntries.length
    if 0 < newEntries.length then
      let promptsToAdd := buildImported now (maxOrderOf existing) newEntries 0
      .ok (⟨true, importedCount, successMessage importedCount⟩,
        savePromptsOk now (existing ++ promptsToAdd))
    else
      .ok (⟨true, importedCount, successMessage importedCount⟩, st)

/-- `importPrompts`.  The input is the outcome of `file.text()` +
`JSON.parse`: `none` when either threw (the catch handler returns a
failure whose message comes from the thrown error — we do not model the
engine-specific parse message), `some doc` the parsed document.  Every
failure is caught and returned as a negative result with the storage cell
untouched. -/
def importPrompts (now : Int) (input : Option JVal) (st : List StoredRec) :
    ImportResult × List StoredRec :=
  match input with
  | none => (⟨false, 0, "Failed to import prompts"⟩, st)
  | some doc =>
    match importInner now doc st with
    | .ok r => r
    | .error e => (⟨false, 0, importErrorMessage e⟩, st)

/-- A stored record in the canonical form `savePrompts` writes: both
timestamp slots are ISO-serialized strings. -/
def CanonicalRec (s : StoredRec) : Prop :=
  (∃ m, s.createdAt = .jstr (isoRender m)) ∧ (∃ m, s.updatedAt = .jstr (isoRender m))

/-- A stored collection entirely in canonical form — the invariant of
every collection the application itself has persisted. -/
def Canonical (st : List StoredRec) : Prop := ∀ s ∈ st, CanonicalRec s

/-- The id-uniqueness invariant of a stored collection. -/
def DistinctIds (st : List StoredRec) : Prop :=
    (st.map (fun s => s.id)).Nodup

instance : DecidableRel (fun a b : Prompt => a.order ≤ b.order) :=
  fun a b => Int.decLe a.order b.order

/-- The sort the List Controller applies on load
(`.sort((a, b) => a.order - b.order)`, a stable comparison sort by the
`order` field). -/
def sortByOrder (l : List Prompt) : List Prompt :=
  l.insertionSort (fun a b => a.order ≤ b.order)

/-- A JSON import entry carrying exactly the three required fields. -/
def importEntry (i t c : String) : JVal :=
  .jobj [("id", .jstr i), ("title", .jstr t), ("content", .jstr c)]

/-- An import document whose `prompts` array holds a single entry. -/
def singlePromptDoc (e : JVal) : JVal :=
  .jobj [("prompts", .jarr [e])]

/-! ### Support lemmas -/


theorem natOfChars_natCharsAux : ∀ fuel n : Nat, n ≤ fuel → natOfChars (natCharsAux fuel n) = n := by
  intro fuel
  induction fuel with
  | zero =>
    intro n h
    have hn : n = 0 := Nat.le_zero.mp h
    simp [natCharsAux, natOfChars, hn]
  | succ f ih =>
    intro n h
    by_cases h0 : n = 0
    · simp [natCharsAux, natOfChars, h0]
    · have hdiv : n / 2 ≤ f := by
        have := Nat.div_lt_self (Nat.pos_of_ne_zero h0) (by norm_num : 1 < 2)
        omega
      simp only [natCharsAux, if_neg h0, natOfChars, ih (n / 2) hdiv]
      rcases Nat.mod_two_eq_zero_or_one n with hm | hm
      · have h2 : (if n % 2 = 1 then '1' else '0') = '0' := by rw [hm]; simp
        rw [h2, if_neg (by decide : ¬('0' = '1'))]
        omega
      · have h2 : (if n % 2 = 1 then '1' else '0') = '1' := by rw [hm]; simp
        rw [h2, if_pos rfl]
        omega

theorem natOfChars_natChars (n : Nat) : natOfChars (natChars n) = n :=
  natOfChars_natCharsAux n n (Nat.le_refl n)

theorem decodeIntChars_intChars (m : Int) : decodeIntChars (intChars m) = some m := by
  cases m with
  | ofNat n => simp [intChars, decodeIntChars, natOfChars_natChars]
  | negSucc n =>
    simp only [intChars, decodeIntChars, natOfChars_natChars, Option.some.injEq,
      Int.negSucc_eq, Int.ofNat_eq_coe]
    push_cast
    ring

theorem jsParseDate_isoRender (m : Int) : jsParseDate (isoRender m) = some m := by
  simp [jsParseDate, isoRender, decodeIntChars_intChars]

theorem isoRender_not_whitespace (m : Int) :
    (isoRender m).data.all Char.isWhitespace = false := by
  simp [isoRender, List.all_cons]

theorem getValidDate_isoRender (m : Int) :
    getValidDate (.dstr (isoRender m)) = some (.valid m) := by
  simp [getValidDate, isoRender_not_whitespace, jsParseDate_isoRender]

theorem restoreDate_isoRender (now m : Int) :
    restoreDateFromStorage now (.jstr (isoRender m)) = .valid m := by
  simp [restoreDateFromStorage, getValidDate_isoRender]

theorem dateToISOString_valid (now m : Int) :
    dateToISOString now (.ddate (.valid m)) = isoRender m := by
  simp [dateToISOString, getValidDateWithFallback, getValidDate]

theorem getValidDate_isValid {i : DateInput} {d : JSDate}
    (h : getValidDate i = some d) : ∃ m, d = .valid m := by
  cases i with
  | dnull => simp [getValidDate] at h
  | dother => simp [getValidDate] at h
  | ddate dt =>
    cases dt with
    | invalid => simp [getValidDate] at h
    | valid m => simp [getValidDate] at h; exact ⟨m, h.symm⟩
  | dstr s =>
    simp only [getValidDate] at h
    split at h
    · exact absurd h (by simp)
    · split at h
      · exact ⟨_, (Option.some.injEq _ _ ▸ h).symm⟩
      · exact absurd h (by simp)
  | dnum n =>
    cases n with
    | nan => simp [getValidDate] at h
    | inf => simp [getValidDate] at h
    | negInf => simp [getValidDate] at h
    | finite m =>
      simp only [getValidDate] at h
      split at h
      · exact absurd h (by simp)
      · split at h
        · exact ⟨_, (Option.some.injEq _ _ ▸ h).symm⟩
        · split at h
          · exact ⟨_, (Option.some.injEq _ _ ▸ h).symm⟩
          · exact absurd h (by simp)

theorem restoreDate_valid (now : Int) (v : JVal) :
    ∃ m, restoreDateFromStorage now v = .valid m := by
  cases v with
  | jnull => exact ⟨now, rfl⟩
  | jbool b => exact ⟨now, rfl⟩
  | jarr l => exact ⟨now, rfl⟩
  | jobj l => exact ⟨now, rfl⟩
  | jdate d =>
    cases d with
    | invalid => exact ⟨now, rfl⟩
    | valid m => exact ⟨m, rfl⟩
  | jstr s =>
    simp only [restoreDateFromStorage]
    rcases hg : getValidDate (.dstr s) with _ | d
    · exact ⟨now, rfl⟩
    · obtain ⟨m, hm⟩ := getValidDate_isValid hg
      exact ⟨m, by rw [hm]⟩
  | jnum n =>
    simp only [restoreDateFromStorage]
    rcases hg : getValidDate (.dnum n) with _ | d
    · exact ⟨now, rfl⟩
    · obtain ⟨m, hm⟩ := getValidDate_isValid hg
      exact ⟨m, by rw [hm]⟩

theorem dateToISOString_exists (now : Int) (d : DateInput) :
    ∃ m, dateToISOString now d = isoRender m := by
  unfold dateToISOString
  rcases getValidDateWithFallback now d with m | _
  · exact ⟨_, rfl⟩
  · exact ⟨now, rfl⟩

theorem canonical_savePromptsOk (now : Int) (ps : List Prompt) :
    Canonical (savePromptsOk now ps) := by
  intro s hs
  simp only [savePromptsOk, List.mem_map] at hs
  obtain ⟨p, _, rfl⟩ := hs
  obtain ⟨m1, h1⟩ := dateToISOString_exists now (.ddate p.createdAt)
  obtain ⟨m2, h2⟩ := dateToISOString_exists now (.ddate p.updatedAt)
  exact ⟨⟨m1, by simp [serializePrompt, h1]⟩, ⟨m2, by simp [serializePrompt, h2]⟩⟩

theorem serialize_restore {s : StoredRec} (hc : CanonicalRec s) (now now2 : Int) :
    serializePrompt now (restorePrompt now2 s) = s := by
  obtain ⟨⟨a, ha⟩, ⟨b, hb⟩⟩ := hc
  cases s
  simp only [serializePrompt, restorePrompt] at *
  subst ha hb
  simp [restoreDate_isoRender, dateToISOString_valid]

theorem restore_serialize {p : Prompt} {a b : Int}
    (hca : p.createdAt = .valid a) (hcu : p.updatedAt = .valid b) (now now2 : Int) :
    restorePrompt now2 (serializePrompt now p) = p := by
  cases p
  simp only [Prompt.mk.injEq] at hca hcu ⊢
  simp_all only [serializePrompt, restorePrompt]
  subst hca hcu
  simp [dateToISOString_valid, restoreDate_isoRender]

theorem restorePrompt_valid (now : Int) (s : StoredRec) :
    (∃ a, (restorePrompt now s).createdAt = .valid a) ∧
      (∃ b, (restorePrompt now s).updatedAt = .valid b) :=
  ⟨restoreDate_valid now s.createdAt, restoreDate_valid now s.updatedAt⟩

theorem save_get_canonical {st : List StoredRec} (hc : Canonical st) (now now2 : Int) :
    savePromptsOk now (getPromptsOk now2 st) = st := by
  unfold savePromptsOk getPromptsOk
  rw [List.map_map]
  have : ∀ s ∈ st, (serializePrompt now ∘ restorePrompt now2) s = id s := by
    intro s hs
    exact serialize_restore (hc s hs) now now2
  rw [List.map_congr_left this, List.map_id]

theorem get_save_valid {ps : List Prompt}
    (hv : ∀ p ∈ ps, (∃ a, p.createdAt = .valid a) ∧ (∃ b, p.updatedAt = .valid b))
    (now now2 : Int) :
    getPromptsOk now2 (savePromptsOk now ps) = ps := by
  unfold savePromptsOk getPromptsOk
  rw [List.map_map]
  have : ∀ p ∈ ps, (restorePrompt now2 ∘ serializePrompt now) p = id p := by
    intro p hp
    obtain ⟨⟨a, ha⟩, ⟨b, hb⟩⟩ := hv p hp
    exact restore_serialize ha hb now now2
  rw [List.map_congr_left this, List.map_id]

theorem jvalStrictEq_eq : ∀ {a b : JVal}, jvalStrictEq a b = true → a = b := by
  intro a b h
  cases a with
  | jnull => cases b <;> simp_all [jvalStrictEq]
  | jbool x => cases b <;> simp_all [jvalStrictEq]
  | jstr s => cases b <;> simp_all [jvalStrictEq]
  | jarr l => cases b <;> simp_all [jvalStrictEq]
  | jobj l => cases b <;> simp_all [jvalStrictEq]
  | jdate d => cases b <;> simp_all [jvalStrictEq]
  | jnum n =>
    cases b with
    | jnum n2 => cases n <;> cases n2 <;> simp_all [jvalStrictEq]
    | jnull => cases n <;> simp_all [jvalStrictEq]
    | jbool _ => cases n <;> simp_all [jvalStrictEq]
    | jstr _ => cases n <;> simp_all [jvalStrictEq]
    | jarr _ => cases n <;> simp_all [jvalStrictEq]
    | jobj _ => cases n <;> simp_all [jvalStrictEq]
    | jdate _ => cases n <;> simp_all [jvalStrictEq]

theorem jvalStrictEq_of_ne {a b : JVal} (h : a ≠ b) : jvalStrictEq a b = false := by
  by_contra hne
  exact h (jvalStrictEq_eq (by revert hne; cases jvalStrictEq a b <;> simp))

theorem jvalStrictEq_jstr_self (s : String) :
    jvalStrictEq (.jstr s) (.jstr s) = true := by
  simp [jvalStrictEq]

theorem jvalStrictEq_jstr_iff (v : JVal) (s : String) :
    jvalStrictEq v (.jstr s) = true ↔ v = .jstr s := by
  constructor
  · exact jvalStrictEq_eq
  · rintro rfl; exact jvalStrictEq_jstr_self s

theorem savePromptsOk_map_id (now : Int) (ps : List Prompt) :
    (savePromptsOk now ps).map (fun s => s.id) = ps.map (fun p => p.id) := by
  simp [savePromptsOk, List.map_map, Function.comp, serializePrompt]

theorem getPromptsOk_map_id (now : Int) (st : List StoredRec) :
    (getPromptsOk now st).map (fun p => p.id) = st.map (fun s => s.id) := by
  simp [getPromptsOk, List.map_map, Function.comp, restorePrompt]

theorem savePromptsOk_map_order (now : Int) (ps : List Prompt) :
    (savePromptsOk now ps).map (fun s => s.order) = ps.map (fun p => p.order) := by
  simp [savePromptsOk, List.map_map, Function.comp, serializePrompt]

theorem withOrders_map_id : ∀ (ps : List Prompt) (k : Nat),
    (withOrders ps k).map (fun p => p.id) = ps.map (fun p => p.id) := by
  intro ps
  induction ps with
  | nil => intro k; rfl
  | cons p rest ih => intro k; simp [withOrders, ih]

theorem withOrders_map_order : ∀ (ps : List Prompt) (k : Nat),
    (withOrders ps k).map (fun p => p.order) = (List.range' k ps.length).map (fun n => (n : Int)) := by
  intro ps
  induction ps with
  | nil => intro k; rfl
  | cons p rest ih => intro k; simp [withOrders, ih, List.range'_succ]

theorem withOrders_dates : ∀ (ps : List Prompt) (k : Nat), ∀ q ∈ withOrders ps k,
    ∃ p ∈ ps, q.createdAt = p.createdAt ∧ q.updatedAt = p.updatedAt := by
  intro ps
  induction ps with
  | nil => intro k q hq; simp [withOrders] at hq
  | cons p rest ih =>
    intro k q hq
    rcases List.mem_cons.mp hq with hq | hq
    · exact ⟨p, List.mem_cons_self p rest, by simp [hq]⟩
    · obtain ⟨p2, hp2, h2⟩ := ih (k + 1) q hq
      exact ⟨p2, List.mem_cons_of_mem p hp2, h2⟩

theorem withOrders_order_ge : ∀ (ps : List Prompt) (k : Nat), ∀ q ∈ withOrders ps k,
    (k : Int) ≤ q.order := by
  intro ps
  induction ps with
  | nil => intro k q hq; simp [withOrders] at hq
  | cons p rest ih =>
    intro k q hq
    rcases List.mem_cons.mp hq with hq | hq
    · simp [hq]
    · have := ih (k + 1) q hq
      omega

theorem withOrders_sorted : ∀ (ps : List Prompt) (k : Nat),
    List.Sorted (fun a b : Prompt => a.order ≤ b.order) (withOrders ps k) := by
  intro ps
  induction ps with
  | nil => intro k; simp [withOrders]
  | cons p rest ih =>
    intro k
    refine List.sorted_cons.mpr ⟨?_, ih (k + 1)⟩
    intro q hq
    have := withOrders_order_ge rest (k + 1) q hq
    simp only
    omega

theorem updatePromptList_map_id (up : Prompt) : ∀ ps : List Prompt,
    (updatePromptList up ps).map (fun p => p.id) = ps.map (fun p => p.id) := by
  intro ps
  induction ps with
  | nil => rfl
  | cons p rest ih =>
    by_cases h : jvalStrictEq p.id up.id = true
    · simp only [updatePromptList, if_pos h, List.map_cons]
      rw [jvalStrictEq_eq h]
    · simp only [updatePromptList, if_neg h, List.map_cons, ih]

theorem importInner_ok_success {now : Int} {doc : JVal} {st : List StoredRec}
    {r : ImportResult × List StoredRec}
    (h : importInner now doc st = .ok r) : r.1.success = true := by
  unfold importInner at h
  dsimp only at h
  split at h
  · exact absurd h (by simp)
  · split at h
    · cases h; rfl
    · cases h; rfl

theorem importInner_ok_store {now : Int} {doc : JVal} {st : List StoredRec}
    {r : ImportResult × List StoredRec}
    (h : importInner now doc st = .ok r) :
    r.2 = st ∨ ∃ ps, r.2 = savePromptsOk now ps := by
  unfold importInner at h
  dsimp only at h
  split at h
  · exact absurd h (by simp)
  · split at h
    · cases h; exact Or.inr ⟨_, rfl⟩
    · cases h; exact Or.inl rfl

/-! ### Claim theorems -/

/-- C9 (counterexample): the claim states that every finite non-negative
number at or above the 10,000,000,000 threshold is treated as milliseconds
and normalized to that instant.  At the concrete input 10^16 the
normalizer instead yields no value, because the instant lies outside the
ECMAScript `Date` range and `new Date(10^16)` is the invalid date. -/
theorem c9_counterexample :
    getValidDate (.dnum (.finite 10000000000000000)) = none ∧
      ¬ getValidDate (.dnum (.finite 10000000000000000)) =
          some (.valid 10000000000000000) := by
  constructor
  · decide
  · decide

/-- C9 (amended): for finite numeric input the normalizer rejects
negatives, scales values below 10,000,000,000 from seconds to
milliseconds (always yielding that instant), treats larger values as
milliseconds directly — yielding the instant exactly when it is within
the representable `Date` range and no value beyond it; NaN and the
infinities yield no value; and the seconds-range and milliseconds-range
spellings of the example timestamp normalize to the same instant. -/
theorem c9_numeric_normalization :
    (∀ m : Int, m < 0 → getValidDate (.dnum (.finite m)) = none) ∧
    (∀ m : Int, 0 ≤ m → m < 10000000000 →
      getValidDate (.dnum (.finite m)) = some (.valid (m * 1000))) ∧
    (∀ m : Int, 10000000000 ≤ m → m ≤ 8640000000000000 →
      getValidDate (.dnum (.finite m)) = some (.valid m)) ∧
    (∀ m : Int, 8640000000000000 < m → getValidDate (.dnum (.finite m)) = none) ∧
    getValidDate (.dnum .nan) = none ∧
    getValidDate (.dnum .inf) = none ∧
    getValidDate (.dnum .negInf) = none ∧
    getValidDate (.dnum (.finite 1700000000)) =
      getValidDate (.dnum (.finite 1700000000000)) := by
  refine ⟨?_, ?_, ?_, ?_, rfl, rfl, rfl, by decide⟩
  · intro m hm
    simp [getValidDate, hm]
  · intro m hm0 hm1
    simp only [getValidDate]
    rw [if_neg (by omega), if_pos hm1]
  · intro m hm0 hm1
    simp only [getValidDate, jsDateTimeRange]
    rw [if_neg (by omega), if_neg (by omega), if_pos hm1]
  · intro m hm
    simp only [getValidDate, jsDateTimeRange]
    rw [if_neg (by omega), if_neg (by omega), if_neg (by omega)]

/-- C9 (witness for the amended theorem). -/
theorem c9_numeric_normalization_witness :
    getValidDate (.dnum (.finite 1700000000)) = some (.valid 1700000000000) :=
  (c9_numeric_normalization).2.1 1700000000 (by norm_num) (by norm_num)

/-- C1 (counterexample): `list()` is claimed never to fail, degrading to
an empty collection when the fallback read also fails.  At the concrete
storage outcome where the primary (chrome) read throws and the
`localStorage` read also throws, `getPrompts` propagates the error: the
catch handler re-reads `localStorage` with no further protection. -/
theorem c1_counterexample :
    getPrompts 0 ⟨true, .error (), .error ()⟩ = .error () := rfl

/-- C1 (amended): `list()` falls back to the secondary store when the
primary read throws; whenever the secondary read succeeds `list()` cannot
fail, and in particular a missing secondary value degrades to the empty
collection — but when the secondary read itself throws, the failure
propagates out of `list()`. -/
theorem c1_fallback (now : Int) (b : BackendState) :
    (∀ v, b.localRead = .ok v → ∃ l, getPrompts now b = .ok l) ∧
    (primaryRead b = .error () → b.localRead = .ok none → getPrompts now b = .ok []) ∧
    (primaryRead b = .error () → ∀ v, b.localRead = .ok v →
      getPrompts now b = .ok (getPromptsOk now (v.getD []))) ∧
    (primaryRead b = .error () → b.localRead = .error () →
      getPrompts now b = .error ()) := by
  refine ⟨?_, ?_, ?_, ?_⟩
  · intro v hv
    unfold getPrompts
    rcases hp : primaryRead b with e | w
    · rw [hv]; exact ⟨_, rfl⟩
    · exact ⟨_, rfl⟩
  · intro hp hv
    unfold getPrompts
    rw [hp, hv]
    rfl
  · intro hp v hv
    unfold getPrompts
    rw [hp, hv]
  · intro hp hv
    unfold getPrompts
    rw [hp, hv]

/-- C1 (witness): at the concrete outcome where the chrome read throws and
the secondary store holds no value, `list()` returns the empty
collection. -/
theorem c1_fallback_witness :
    getPrompts 0 ⟨true, .error (), .ok none⟩ = .ok [] :=
  (c1_fallback 0 ⟨true, .error (), .ok none⟩).2.1 rfl rfl

/-- C6: a document whose `prompts` field is missing/falsy or not an array
(and likewise an input whose read or JSON parse threw) yields a failed
outcome with `imported = 0` and an untouched stored collection; moreover
every failed outcome of import leaves the stored collection unchanged —
failures are returned, never thrown past the boundary (the model's import
is total, with the catch handler folded into `importPrompts`). -/
theorem c6_import_failures (now : Int) (input : Option JVal) (st : List StoredRec) :
    ((input = none ∨ ∃ doc, input = some doc ∧
        (truthy (jsGetField doc "prompts") = false ∨
          jsIsArray (jsGetField doc "prompts") = false)) →
      (importPrompts now input st).1.success = false ∧
        (importPrompts now input st).1.imported = 0 ∧
        (importPrompts now input st).2 = st) ∧
    ((importPrompts now input st).1.success = false →
      (importPrompts now input st).2 = st) := by
  constructor
  · rintro (rfl | ⟨doc, rfl, hcond⟩)
    · exact ⟨rfl, rfl, rfl⟩
    · have hinner : importInner now doc st = .error .invalidFormat := by
        unfold importInner
        dsimp only
        rcases hcond with hc | hc <;> rw [if_pos (by simp [hc])]
      simp [importPrompts, hinner, importErrorMessage]
  · intro hs
    rcases input with _ | doc
    · rfl
    · rcases hinner : importInner now doc st with e | r
      · simp [importPrompts, hinner]
      · have := importInner_ok_success hinner
        simp [importPrompts, hinner] at hs
        rw [this] at hs
        exact absurd hs (by simp)

/-- C6 (witness): importing a document with no `prompts` field fails with
zero imported records and leaves a (concrete) stored collection
untouched. -/
theorem c6_import_failures_witness :
    (importPrompts 0 (some (.jobj [])) []).1.success = false ∧
      (importPrompts 0 (some (.jobj [])) []).1.imported = 0 ∧
      (importPrompts 0 (some (.jobj [])) []).2 = [] :=
  (c6_import_failures 0 (some (.jobj [])) []).1 (Or.inr ⟨_, rfl, Or.inl rfl⟩)

/-- C10: `reorder(L)` ignores the previously stored collection entirely —
the result is the same for any prior storage state, the persisted `order`
fields are exactly the positional indices `0..|L|-1`, and any previously
stored record whose id does not occur in `L` is gone from the resulting
collection. -/
theorem c10_reorder_overwrite (now : Int) (L : List Prompt) (st st2 : List StoredRec) :
    reorderPrompts now L st = reorderPrompts now L st2 ∧
    (reorderPrompts now L st).map (fun s => s.order) =
      (List.range' 0 L.length).map (fun n => (n : Int)) ∧
    (∀ s ∈ st, s.id ∉ L.map (fun p => p.id) →
      ∀ r ∈ reorderPrompts now L st, r.id ≠ s.id) := by
  refine ⟨rfl, ?_, ?_⟩
  · unfold reorderPrompts
    rw [savePromptsOk_map_order, withOrders_map_order]
  · intro s hs hnot r hr hreq
    have hid : r.id ∈ (reorderPrompts now L st).map (fun x => x.id) :=
      List.mem_map_of_mem _ hr
    rw [reorderPrompts, savePromptsOk_map_id, withOrders_map_id] at hid
    rw [hreq] at hid
    exact hnot hid

/-- C10 (witness): reordering with a list that omits the only stored
record (id "x") leaves a collection whose sole record does not carry id
"x" — the omitted record is gone (concrete instance of the third
conjunct, applied to the one record of the reordered collection). -/
theorem c10_reorder_overwrite_witness :
    (⟨.jstr "y", .jstr "T", .jstr "C", .jarr [], .jstr (isoRender 0),
        .jstr (isoRender 0), 0⟩ : StoredRec).id ≠ .jstr "x" :=
  (c10_reorder_overwrite 0
      [⟨.jstr "y", .jstr "T", .jstr "C", .jarr [], .valid 0, .valid 0, 9⟩]
      [⟨.jstr "x", .jstr "A", .jstr "B", .jarr [], .jstr (isoRender 0), .jstr (isoRender 0), 0⟩]
      []).2.2
    ⟨.jstr "x", .jstr "A", .jstr "B", .jarr [], .jstr (isoRender 0), .jstr (isoRender 0), 0⟩
    (List.mem_singleton.mpr rfl) (by simp)
    ⟨.jstr "y", .jstr "T", .jstr "C", .jarr [], .jstr (isoRender 0), .jstr (isoRender 0), 0⟩
    (List.mem_singleton.mpr rfl)

/-- C7: on a stored collection in the canonical form the application
itself persists (the spec's timestamp invariant), updating a record whose
id matches nothing stored, or deleting an id matching nothing stored,
leaves the stored collection unchanged.  `updatePrompt` performs no write
at all in that case; `deletePrompt` rewrites the collection it read, which
is byte-identical on canonical collections.  Neither signals an error
(both are total here, as in the source, which resolves their promises
normally). -/
theorem c7_missing_id_noop (now : Int) (st : List StoredRec) (up : Prompt) (pid : String)
    (hCanon : Canonical st)
    (hup : ∀ s ∈ st, s.id ≠ up.id) (hpid : ∀ s ∈ st, s.id ≠ .jstr pid) :
    updatePrompt now up st = st ∧ deletePrompt now pid st = st := by
  constructor
  · unfold updatePrompt
    have hany : (getPromptsOk now st).any (fun p => jvalStrictEq p.id up.id) = false := by
      rw [List.any_eq_false]
      intro p hp
      obtain ⟨s, hs, rfl⟩ := List.mem_map.mp hp
      exact fun h => hup s hs (jvalStrictEq_eq h)
    simp [hany]
  · unfold deletePrompt
    have hfilter : (getPromptsOk now st).filter
        (fun p => !(jvalStrictEq p.id (.jstr pid))) = getPromptsOk now st := by
      rw [List.filter_eq_self]
      intro p hp
      obtain ⟨s, hs, rfl⟩ := List.mem_map.mp hp
      have hf : jvalStrictEq (restorePrompt now s).id (.jstr pid) = false :=
        jvalStrictEq_of_ne (hpid s hs)
      simp [hf]
    rw [hfilter, save_get_canonical hCanon]

/-- C7 (witness): on the empty stored collection both operations are
no-ops at concrete arguments. -/
theorem c7_missing_id_noop_witness :
    updatePrompt 0 ⟨.jstr "q", .jstr "T", .jstr "C", .jarr [], .valid 0, .valid 0, 0⟩ [] = [] ∧
      deletePrompt 0 "q" [] = [] :=
  c7_missing_id_noop 0 [] ⟨.jstr "q", .jstr "T", .jstr "C", .jarr [], .valid 0, .valid 0, 0⟩ "q"
    (by intro s hs; simp at hs) (by intro s hs; simp at hs) (by intro s hs; simp at hs)

/-- C8: canonical timestamp serialization is an invariant of the stored
collection — starting from a canonically stored collection, every
mutating operation (create, update, delete, reorder, import) leaves a
collection in which both timestamp slots of every persisted record are
ISO-serialized strings, never a native date object. -/
theorem c8_canonical_invariant (now : Int) (st : List StoredRec) (hCanon : Canonical st) :
    (∀ p, Canonical (addPrompt now p st)) ∧
    (∀ up, Canonical (updatePrompt now up st)) ∧
    (∀ pid, Canonical (deletePrompt now pid st)) ∧
    (∀ L, Canonical (reorderPrompts now L st)) ∧
    (∀ input, Canonical (importPrompts now input st).2) := by
  refine ⟨?_, ?_, ?_, ?_, ?_⟩
  · intro p
    exact canonical_savePromptsOk now _
  · intro up
    unfold updatePrompt
    by_cases h : (getPromptsOk now st).any (fun p => jvalStrictEq p.id up.id) = true
    · simp only [h, if_true]
      exact canonical_savePromptsOk now _
    · simp only [Bool.not_eq_true] at h
      simp only [h, Bool.false_eq_true, if_false]
      exact hCanon
  · intro pid
    exact canonical_savePromptsOk now _
  · intro L
    exact canonical_savePromptsOk now _
  · intro input
    rcases input with _ | doc
    · exact hCanon
    · rcases hinner : importInner now doc st with e | r
      · simpa [importPrompts, hinner] using hCanon
      · rcases importInner_ok_store hinner with h | ⟨ps, h⟩
        · simpa [importPrompts, hinner, h] using hCanon
        · simp only [importPrompts, hinner]
          rw [h]
          exact canonical_savePromptsOk now _

/-- C8 (witness): after deleting a missing id from a concrete canonical
one-record collection, the surviving record is still in canonical form
(instance of the delete conjunct at the collection's sole record). -/
theorem c8_canonical_invariant_witness :
    CanonicalRec ⟨.jstr "x", .jstr "A", .jstr "B", .jarr [],
      .jstr (isoRender 0), .jstr (isoRender 0), 0⟩ :=
  (c8_canonical_invariant 0
      [⟨.jstr "x", .jstr "A", .jstr "B", .jarr [], .jstr (isoRender 0), .jstr (isoRender 0), 0⟩]
      (by intro s hs; rw [List.mem_singleton] at hs; subst hs
          exact ⟨⟨0, rfl⟩, ⟨0, rfl⟩⟩)).2.2.1 "y"
    ⟨.jstr "x", .jstr "A", .jstr "B", .jarr [], .jstr (isoRender 0), .jstr (isoRender 0), 0⟩
    (List.mem_singleton.mpr rfl)

/-- C2 (counterexample): import deduplicates by (title, content) only,
so importing a record that reuses an existing id with a fresh title and
content adds it — the stored collection afterwards has ids "x", "x": id
uniqueness is not preserved by import.  The starting collection is
well-formed (distinct ids) and the claim asserts import never adds a
record whose id already exists. -/
theorem c2_counterexample :
    DistinctIds [⟨.jstr "x", .jstr "A", .jstr "B", .jarr [],
        .jstr (isoRender 0), .jstr (isoRender 0), 0⟩] ∧
    ((importPrompts 0
        (some (.jobj [("prompts", .jarr [.jobj [("id", .jstr "x"), ("title", .jstr "C"),
          ("content", .jstr "D")]])]))
        [⟨.jstr "x", .jstr "A", .jstr "B", .jarr [],
          .jstr (isoRender 0), .jstr (isoRender 0), 0⟩]).2.map (fun s => s.id) =
      [.jstr "x", .jstr "x"]) ∧
    ¬ DistinctIds (importPrompts 0
        (some (.jobj [("prompts", .jarr [.jobj [("id", .jstr "x"), ("title", .jstr "C"),
          ("content", .jstr "D")]])]))
        [⟨.jstr "x", .jstr "A", .jstr "B", .jarr [],
          .jstr (isoRender 0), .jstr (isoRender 0), 0⟩]).2 := by
  refine ⟨by simp [DistinctIds], rfl, ?_⟩
  intro hnd
  unfold DistinctIds at hnd
  rw [(rfl : (importPrompts 0
      (some (.jobj [("prompts", .jarr [.jobj [("id", .jstr "x"), ("title", .jstr "C"),
        ("content", .jstr "D")]])]))
      [⟨.jstr "x", .jstr "A", .jstr "B", .jarr [],
        .jstr (isoRender 0), .jstr (isoRender 0), 0⟩]).2.map (fun s => s.id) =
    [.jstr "x", .jstr "x"])] at hnd
  exact (List.nodup_cons.mp hnd).1 (List.mem_singleton.mpr rfl)

/-- C2 (amended): id uniqueness is preserved by create-with-fresh-id,
update, delete, and reorder-of-distinct-ids; import, however, dedupes
only by exact (title, content) and can add a record whose id already
exists (see the counterexample). -/
theorem c2_distinct_ids (now : Int) (st : List StoredRec) (hd : DistinctIds st) :
    (∀ p : Prompt, p.id ∉ st.map (fun s => s.id) → DistinctIds (addPrompt now p st)) ∧
    (∀ up, DistinctIds (updatePrompt now up st)) ∧
    (∀ pid, DistinctIds (deletePrompt now pid st)) ∧
    (∀ L : List Prompt, (L.map (fun p => p.id)).Nodup →
      DistinctIds (reorderPrompts now L st)) := by
  refine ⟨?_, ?_, ?_, ?_⟩
  · intro p hp
    unfold DistinctIds addPrompt
    rw [savePromptsOk_map_id, List.map_append, getPromptsOk_map_id]
    rw [List.nodup_append]
    refine ⟨hd, by simp, ?_⟩
    intro x hx
    simp only [List.map_cons, List.map_nil, List.mem_singleton]
    intro hx2
    rw [hx2] at hx
    exact hp hx
  · intro up
    unfold DistinctIds updatePrompt
    by_cases h : (getPromptsOk now st).any (fun p => jvalStrictEq p.id up.id) = true
    · simp only [h, if_true]
      rw [savePromptsOk_map_id, updatePromptList_map_id, getPromptsOk_map_id]
      exact hd
    · simp only [Bool.not_eq_true] at h
      simp only [h, Bool.false_eq_true, if_false]
      exact hd
  · intro pid
    unfold DistinctIds deletePrompt
    rw [savePromptsOk_map_id]
    have hsub : ((getPromptsOk now st).filter
        (fun p => !(jvalStrictEq p.id (.jstr pid)))).map (fun p => p.id) |>.Sublist
        ((getPromptsOk now st).map (fun p => p.id)) :=
      ((getPromptsOk now st).filter_sublist).map _
    have : ((getPromptsOk now st).map (fun p => p.id)).Nodup := by
      rw [getPromptsOk_map_id]; exact hd
    exact this.sublist hsub
  · intro L hL
    unfold DistinctIds reorderPrompts
    rw [savePromptsOk_map_id, withOrders_map_id]
    exact hL

/-- C2 (witness for the amended theorem): deleting from a concrete
one-record collection preserves distinct ids. -/
theorem c2_distinct_ids_witness :
    DistinctIds (deletePrompt 0 "x"
      [⟨.jstr "x", .jstr "A", .jstr "B", .jarr [], .jstr (isoRender 0), .jstr (isoRender 0), 0⟩]) :=
  (c2_distinct_ids 0
      [⟨.jstr "x", .jstr "A", .jstr "B", .jarr [], .jstr (isoRender 0), .jstr (isoRender 0), 0⟩]
      (by simp [DistinctIds])).2.2.1 "x"

/-- C5: creating a valid record (string id fresh among stored ids,
non-empty string title and content, valid timestamps) and then listing
yields exactly one record with that id, and its field values — title,
content, tags, both timestamps as instants, and order — are identical to
the created record's. -/
theorem c5_create_list_roundtrip (nowS nowL : Int) (st : List StoredRec) (r : Prompt)
    (i t c : String) (hi : r.id = .jstr i)
    (ht : r.title = .jstr t) (ht2 : t ≠ "")
    (hc : r.content = .jstr c) (hc2 : c ≠ "")
    (a b : Int) (hca : r.createdAt = .valid a) (hcu : r.updatedAt = .valid b)
    (hfresh : ∀ s ∈ st, s.id ≠ r.id) :
    (getPromptsOk nowL (addPrompt nowS r st)).filter
      (fun p => jvalStrictEq p.id r.id) = [r] := by
  unfold addPrompt
  rw [get_save_valid ?hv nowS nowL]
  case hv =>
    intro p hp
    rcases List.mem_append.mp hp with hp | hp
    · obtain ⟨s, _, rfl⟩ := List.mem_map.mp hp
      exact restorePrompt_valid nowS s
    · rw [List.mem_singleton.mp hp]
      exact ⟨⟨a, hca⟩, ⟨b, hcu⟩⟩
  rw [List.filter_append]
  have hnil : (getPromptsOk nowS st).filter (fun p => jvalStrictEq p.id r.id) = [] := by
    rw [List.filter_eq_nil_iff]
    intro p hp
    obtain ⟨s, hs, rfl⟩ := List.mem_map.mp hp
    intro habs
    exact hfresh s hs (jvalStrictEq_eq habs)
  have hone : [r].filter (fun p => jvalStrictEq p.id r.id) = [r] := by
    have : jvalStrictEq r.id r.id = true := by
      rw [hi]; exact jvalStrictEq_jstr_self i
    simp [List.filter, this]
  rw [hnil, hone, List.nil_append]

/-- C5 (witness): concrete create/list round trip on the empty store. -/
theorem c5_create_list_roundtrip_witness :
    (getPromptsOk 1 (addPrompt 0
        ⟨.jstr "a1", .jstr "T", .jstr "C", .jarr [], .valid 5, .valid 6, 0⟩ [])).filter
      (fun p => jvalStrictEq p.id (JVal.jstr "a1")) =
      [⟨.jstr "a1", .jstr "T", .jstr "C", .jarr [], .valid 5, .valid 6, 0⟩] :=
  c5_create_list_roundtrip 0 1 []
    ⟨.jstr "a1", .jstr "T", .jstr "C", .jarr [], .valid 5, .valid 6, 0⟩
    "a1" "T" "C" rfl rfl (by decide) rfl (by decide) 5 6 rfl rfl
    (by intro s hs; simp at hs)

/-- C4: for every permutation `P` of the stored collection (as read by
`list()`), `reorder(P)` rewrites every order field to the positional
index, and a subsequent `list()` sorted by `order` ascending yields
exactly the sequence `P` (with the order fields positionally rewritten,
as the claim itself describes). -/
theorem c4_reorder_roundtrip (nowG nowR nowL : Int) (st : List StoredRec) (P : List Prompt)
    (hperm : P.Perm (getPromptsOk nowG st)) :
    sortByOrder (getPromptsOk nowL (reorderPrompts nowR P st)) = withOrders P 0 ∧
    (getPromptsOk nowL (reorderPrompts nowR P st)).map (fun p => p.order) =
      (List.range' 0 P.length).map (fun n => (n : Int)) := by
  have hvP : ∀ p ∈ P, (∃ a, p.createdAt = .valid a) ∧ (∃ b, p.updatedAt = .valid b) := by
    intro p hp
    have hp2 := hperm.mem_iff.mp hp
    obtain ⟨s, _, rfl⟩ := List.mem_map.mp hp2
    exact restorePrompt_valid nowG s
  have hv : ∀ q ∈ withOrders P 0, (∃ a, q.createdAt = .valid a) ∧ (∃ b, q.updatedAt = .valid b) := by
    intro q hq
    obtain ⟨p, hp, hc, hu⟩ := withOrders_dates P 0 q hq
    obtain ⟨⟨a, ha⟩, ⟨b, hb⟩⟩ := hvP p hp
    exact ⟨⟨a, hc ▸ ha⟩, ⟨b, hu ▸ hb⟩⟩
  have hget : getPromptsOk nowL (reorderPrompts nowR P st) = withOrders P 0 := by
    unfold reorderPrompts
    exact get_save_valid hv nowR nowL
  constructor
  · rw [hget]
    exact List.Sorted.insertionSort_eq (withOrders_sorted P 0)
  · rw [hget, withOrders_map_order]

/-- C4 (witness): concrete one-record instance, with `P` the identity
permutation of the stored collection. -/
theorem c4_reorder_roundtrip_witness :
    sortByOrder (getPromptsOk 1 (reorderPrompts 2
        (getPromptsOk 0
          [⟨.jstr "x", .jstr "A", .jstr "B", .jarr [], .jstr (isoRender 0), .jstr (isoRender 0), 7⟩])
        [⟨.jstr "x", .jstr "A", .jstr "B", .jarr [], .jstr (isoRender 0), .jstr (isoRender 0), 7⟩])) =
      withOrders (getPromptsOk 0
        [⟨.jstr "x", .jstr "A", .jstr "B", .jarr [], .jstr (isoRender 0), .jstr (isoRender 0), 7⟩]) 0 :=
  (c4_reorder_roundtrip 0 2 1
    [⟨.jstr "x", .jstr "A", .jstr "B", .jarr [], .jstr (isoRender 0), .jstr (isoRender 0), 7⟩]
    (getPromptsOk 0
      [⟨.jstr "x", .jstr "A", .jstr "B", .jarr [], .jstr (isoRender 0), .jstr (isoRender 0), 7⟩])
    (List.Perm.refl _)).1

theorem importEntry_getId (i t c : String) :
    jsGetField (importEntry i t c) "id" = .jstr i := rfl

theorem importEntry_getTitle (i t c : String) :
    jsGetField (importEntry i t c) "title" = .jstr t := rfl

theorem importEntry_getContent (i t c : String) :
    jsGetField (importEntry i t c) "content" = .jstr c := rfl

theorem importEntry_getTags (i t c : String) :
    jsGetField (importEntry i t c) "tags" = .jnull := rfl

theorem importEntry_getCreatedAt (i t c : String) :
    jsGetField (importEntry i t c) "createdAt" = .jnull := rfl

theorem importEntry_getUpdatedAt (i t c : String) :
    jsGetField (importEntry i t c) "updatedAt" = .jnull := rfl

theorem singlePromptDoc_getPrompts (e : JVal) :
    jsGetField (singlePromptDoc e) "prompts" = .jarr [e] := rfl

/-- C3: import dedupes by exact (title, content) against the existing
collection.  With a record titled `A` with content `B` already stored,
a one-entry import document carrying that same title and content is
rejected as a duplicate: imported count 0 and the stored collection
untouched.  Importing an entry whose (title, content) matches no existing
record yields imported count 1, and the added record — appended after the
existing collection — is assigned `order = max(existing orders) + 1`,
with id/title/content carried over, empty tags, and both timestamps set
to now (the entry carries none). -/
theorem c3_import_dedupe (now nowL : Int) (st : List StoredRec) (A B i t c : String)
    (hi : i ≠ "") (ht : t ≠ "") (hc : c ≠ "")
    (hAB : ∃ p ∈ getPromptsOk now st, p.title = .jstr A ∧ p.content = .jstr B) :
    ((t = A ∧ c = B) →
      importPrompts now (some (singlePromptDoc (importEntry i t c))) st =
        (⟨true, 0, "No new prompts to import (duplicates were skipped)"⟩, st)) ∧
    ((∀ p ∈ getPromptsOk now st, ¬(p.title = .jstr t ∧ p.content = .jstr c)) →
      (importPrompts now (some (singlePromptDoc (importEntry i t c))) st).1.imported = 1 ∧
      getPromptsOk nowL (importPrompts now (some (singlePromptDoc (importEntry i t c))) st).2 =
        getPromptsOk now st ++
          [⟨.jstr i, .jstr t, .jstr c, .jarr [], .valid now, .valid now,
            maxOrderOf (getPromptsOk now st) + 1⟩]) := by
  constructor
  · rintro ⟨rfl, rfl⟩
    obtain ⟨p, hp, hpt, hpc⟩ := hAB
    have hdup : (getPromptsOk now st).any (fun ex =>
        jvalStrictEq ex.title (jsGetField (importEntry i t c) "title") &&
          jvalStrictEq ex.content (jsGetField (importEntry i t c) "content")) = true := by
      rw [importEntry_getTitle, importEntry_getContent]
      refine List.any_eq_true.mpr ⟨p, hp, ?_⟩
      rw [hpt, hpc]
      simp [jvalStrictEq_jstr_self]
    have hval : importEntryValid (getPromptsOk now st) (importEntry i t c) = false := by
      unfold importEntryValid
      rw [hdup]
      simp
    have himp : importInner now (singlePromptDoc (importEntry i t c)) st =
        .ok (⟨true, 0, successMessage 0⟩, st) := by
      unfold importInner
      dsimp only
      rw [singlePromptDoc_getPrompts]
      simp only [truthy, jsIsArray, Bool.not_true, Bool.or_self, Bool.false_eq_true,
        if_false, List.filter_cons, hval, Bool.false_eq_true, if_false, List.filter_nil,
        List.length_nil, lt_self_iff_false]
    simp only [importPrompts, himp]
    rfl
  · intro hnone
    have htid : truthy (jsGetField (importEntry i t c) "id") = true := by
      rw [importEntry_getId]; simp [truthy, hi]
    have httl : truthy (jsGetField (importEntry i t c) "title") = true := by
      rw [importEntry_getTitle]; simp [truthy, ht]
    have htct : truthy (jsGetField (importEntry i t c) "content") = true := by
      rw [importEntry_getContent]; simp [truthy, hc]
    have hdup : (getPromptsOk now st).any (fun ex =>
        jvalStrictEq ex.title (jsGetField (importEntry i t c) "title") &&
          jvalStrictEq ex.content (jsGetField (importEntry i t c) "content")) = false := by
      rw [importEntry_getTitle, importEntry_getContent]
      refine List.any_eq_false.mpr ?_
      intro p hp
      by_cases hpt : p.title = .jstr t
      · have hpc : p.content ≠ .jstr c := fun hh => hnone p hp ⟨hpt, hh⟩
        simp [jvalStrictEq_of_ne hpc]
      · simp [jvalStrictEq_of_ne hpt]
    have hval : importEntryValid (getPromptsOk now st) (importEntry i t c) = true := by
      unfold importEntryValid
      rw [hdup, htid, httl, htct]
      simp
    have hnewp : mkImportedPrompt now (maxOrderOf (getPromptsOk now st)) 0 (importEntry i t c) =
        ⟨.jstr i, .jstr t, .jstr c, .jarr [], .valid now, .valid now,
          maxOrderOf (getPromptsOk now st) + 1⟩ := by
      unfold mkImportedPrompt
      rw [htid, importEntry_getId, importEntry_getTitle, importEntry_getContent,
        importEntry_getTags, importEntry_getCreatedAt, importEntry_getUpdatedAt]
      simp [jsIsArray, jvalToDateInput, getValidDate]
    have himp : importInner now (singlePromptDoc (importEntry i t c)) st =
        .ok (⟨true, 1, successMessage 1⟩,
          savePromptsOk now (getPromptsOk now st ++
            [⟨.jstr i, .jstr t, .jstr c, .jarr [], .valid now, .valid now,
              maxOrderOf (getPromptsOk now st) + 1⟩])) := by
      unfold importInner
      dsimp only
      rw [singlePromptDoc_getPrompts]
      simp only [truthy, jsIsArray, Bool.not_true, Bool.or_self, Bool.false_eq_true,
        if_false, List.filter_cons, hval, if_true, List.filter_nil, List.length_cons,
        List.length_nil, Nat.zero_add, Nat.lt_irrefl, Nat.zero_lt_one, if_true]
      simp only [buildImported]
      rw [hnewp]
    constructor
    · simp only [importPrompts, himp]
    · simp only [importPrompts, himp]
      refine get_save_valid ?_ now nowL
      intro p hp
      rcases List.mem_append.mp hp with hp | hp
      · obtain ⟨s, _, rfl⟩ := List.mem_map.mp hp
        exact restorePrompt_valid now s
      · rw [List.mem_singleton.mp hp]
        exact ⟨⟨now, rfl⟩, ⟨now, rfl⟩⟩

/-- C3 (witness): importing the duplicate of the stored ("A", "B") record
is rejected with imported count 0 and an untouched collection. -/
theorem c3_import_dedupe_witness :
    importPrompts 0 (some (singlePromptDoc (importEntry "i1" "A" "B")))
      [⟨.jstr "x", .jstr "A", .jstr "B", .jarr [], .jstr (isoRender 0), .jstr (isoRender 0), 0⟩] =
    (⟨true, 0, "No new prompts to import (duplicates were skipped)"⟩,
      [⟨.jstr "x", .jstr "A", .jstr "B", .jarr [], .jstr (isoRender 0), .jstr (isoRender 0), 0⟩]) :=
  (c3_import_dedupe 0 0
      [⟨.jstr "x", .jstr "A", .jstr "B", .jarr [], .jstr (isoRender 0), .jstr (isoRender 0), 0⟩]
      "A" "B" "i1" "A" "B" (by decide) (by decide) (by decide)
      ⟨restorePrompt 0
          ⟨.jstr "x", .jstr "A", .jstr "B", .jarr [], .jstr (isoRender 0), .jstr (isoRender 0), 0⟩,
        List.mem_singleton.mpr rfl, rfl, rfl⟩).1 ⟨rfl, rfl⟩

end PromptHelper
